import Mathlib

/-!
Shallow embedding of the `so_buff` crate (`src/lib.rs`): a fixed-capacity
buffer `Buffer<T, N>` over an array of `MaybeUninit<T>` slots, its `push`
operation, the consuming iterator `IntoIter<T, N>` with its `next`, and the
two `Drop` implementations.

A `MaybeUninit<T>` slot is modelled as `Option T`: `some v` is a slot holding
a live value `v`, `none` is an unformed (uninitialized) slot.  Reading an
unformed slot as a value (`assume_init` on uninitialized memory, undefined
behavior in the source) is modelled as yielding `none`.

The `Drop` implementations are modelled observationally: for each destructor
we define the list of slot indices it touches (calls a destructor on) and the
list of slot contents it destroys, in order, exactly mirroring the loops in
the source.
-/

namespace SoBuff

/-- `Error<T>` from the source: the single error kind, carrying the
rejected value. -/
inductive Error (T : Type) where
  | BufferIsFull : T → Error T
  deriving DecidableEq, Repr

/-- `Buffer<T, N>`: `data` is the array of `N` `MaybeUninit<T>` slots
(`some v` = initialized, `none` = uninit); `len` counts the initialized
prefix.  Well-formed states have `data.length = N`. -/
structure Buffer (T : Type) (N : Nat) where
  data : List (Option T)
  len : Nat
  deriving DecidableEq, Repr

/-- `IntoIter<T, N>`: owns the moved-out slot array, the original length and
the cursor `current_index`. -/
structure IntoIter (T : Type) (N : Nat) where
  buffer : List (Option T)
  len : Nat
  current_index : Nat
  deriving DecidableEq, Repr

namespace Buffer

variable {T : Type} {N : Nat}

/-- `Buffer::new`: all `N` slots uninit, `len = 0`. -/
def new (T : Type) (N : Nat) : Buffer T N :=
  { data := List.replicate N none, len := 0 }

/-- `Buffer::push`: if `len >= N` fail with `BufferIsFull(value)` and leave
the buffer untouched; otherwise write `value` into slot `len` and increment
`len`.  Models the `&mut self` receiver by returning the updated buffer next
to the `Result<(), T>`. -/
def push (b : Buffer T N) (value : T) : Buffer T N × Except (Error T) Unit :=
  if N ≤ b.len then
    (b, Except.error (Error.BufferIsFull value))
  else
    ({ data := b.data.set b.len (some value), len := b.len + 1 }, Except.ok ())

/-- The slot indices `Buffer::drop` touches: `drop_in_place` on the slice of
the first `len` slots, i.e. indices `[0, len)`. -/
def dropTouches (b : Buffer T N) : List Nat :=
  List.range b.len

/-- The slot contents `Buffer::drop` destroys, in order: the contents of
slots `[0, len)`. -/
def dropDestroys (b : Buffer T N) : List (Option T) :=
  b.dropTouches.map (fun i => b.data.getD i none)

/-- `Buffer::into_iter` (`IntoIterator for Buffer`): records the length, sets
`self.len` to 0, replaces `self.data` with a fresh all-uninit array, and
builds the iterator from the moved-out data with `current_index = 0`.
Returns the iterator together with the residual buffer (the `self` that Rust
drops at the end of the call). -/
def into_iter (b : Buffer T N) : IntoIter T N × Buffer T N :=
  ({ buffer := b.data, len := b.len, current_index := 0 },
   { data := List.replicate N none, len := 0 })

end Buffer

/-- Pushing a whole list of values in order, discarding each push result
(as `let _ = buf.push(v)` does). -/
def pushAll {T : Type} {N : Nat} (b : Buffer T N) (vs : List T) : Buffer T N :=
  vs.foldl (fun b v => (b.push v).1) b

/-- Pushing a whole list of values in order while counting how many of the
pushes succeeded. -/
def pushAllSucc {T : Type} {N : Nat} (b : Buffer T N) : List T → Buffer T N × Nat
  | [] => (b, 0)
  | v :: vs =>
    match b.push v with
    | (b', Except.ok _) =>
      let r := pushAllSucc b' vs
      (r.1, r.2 + 1)
    | (b', Except.error _) => pushAllSucc b' vs

namespace IntoIter

variable {T : Type} {N : Nat}

/-- `IntoIter::next`: if `current_index >= len` return `None` with no state
change; otherwise move the value out of slot `current_index` (leaving the
slot uninit) and advance the cursor.  The moved-out slot content is `some v`
for a live slot; an unformed slot would be undefined behavior in the source
and is modelled as yielding `none`. -/
def next (it : IntoIter T N) : Option T × IntoIter T N :=
  if it.len ≤ it.current_index then
    (none, it)
  else
    (it.buffer.getD it.current_index none,
     { buffer := it.buffer.set it.current_index none,
       len := it.len,
       current_index := it.current_index + 1 })

/-- Calling `next` a given number of times, collecting the results in
order. -/
def pullRepeat (it : IntoIter T N) : Nat → List (Option T) × IntoIter T N
  | 0 => ([], it)
  | m + 1 =>
    let n := it.next
    let r := n.2.pullRepeat m
    (n.1 :: r.1, r.2)

/-- The slot indices `IntoIter::drop` touches: the loop
`for index in self.current_index..self.len` calls `assume_init_drop` on each
slot in `[current_index, len)`. -/
def dropTouches (it : IntoIter T N) : List Nat :=
  List.range' it.current_index (it.len - it.current_index)

/-- The slot contents `IntoIter::drop` destroys, in order. -/
def dropDestroys (it : IntoIter T N) : List (Option T) :=
  it.dropTouches.map (fun i => it.buffer.getD i none)

end IntoIter

/-! ### Helper lemmas -/

theorem getD_append_length {α : Type} (l₁ l₂ : List α) (d : α) :
    (l₁ ++ l₂).getD l₁.length d = l₂.getD 0 d := by
  induction l₁ with
  | nil => rfl
  | cons x xs ih =>
    simp only [List.cons_append, List.length_cons, List.getD_cons_succ]
    exact ih

theorem set_append_length {α : Type} (l₁ l₂ : List α) (a : α) :
    (l₁ ++ l₂).set l₁.length a = l₁ ++ l₂.set 0 a := by
  induction l₁ with
  | nil => rfl
  | cons x xs ih =>
    simp only [List.cons_append, List.length_cons, List.set_cons_succ]
    rw [ih]

theorem set_replicate_zero {α : Type} (c : Nat) (hc : 0 < c) (a b : α) :
    (List.replicate c b).set 0 a = a :: List.replicate (c - 1) b := by
  cases c with
  | zero => omega
  | succ k => simp [List.replicate_succ]

/-- Characterization of `pushAll` on a buffer whose slots are an initialized
prefix `pre` followed by uninit slots, when the capacity suffices. -/
theorem pushAll_spec {T : Type} {N : Nat} (vs : List T) : ∀ pre : List T,
    pre.length + vs.length ≤ N →
    pushAll (T := T) (N := N)
        { data := pre.map some ++ List.replicate (N - pre.length) none,
          len := pre.length } vs
      = { data := (pre ++ vs).map some
            ++ List.replicate (N - (pre.length + vs.length)) none,
          len := pre.length + vs.length } := by
  induction vs with
  | nil => intro pre h; simp [pushAll]
  | cons v vs ih =>
    intro pre h
    have hlt : pre.length < N := by
      simp only [List.length_cons] at h; omega
    have hpush :
        (Buffer.push (T := T) (N := N)
          { data := pre.map some ++ List.replicate (N - pre.length) none,
            len := pre.length } v)
        = ({ data := ((pre ++ [v]).map some
              ++ List.replicate (N - (pre.length + 1)) none),
             len := pre.length + 1 }, Except.ok ()) := by
      simp only [Buffer.push, if_neg (Nat.not_le.mpr hlt)]
      have hidx : (List.map some pre ++ List.replicate (N - pre.length) none).set
            pre.length (some v)
          = List.map some pre
              ++ (List.replicate (N - pre.length) none).set 0 (some v) := by
        have hsa := set_append_length (pre.map some)
            (List.replicate (N - pre.length) none) (some v)
        simp only [List.length_map] at hsa
        exact hsa
      rw [hidx, set_replicate_zero _ (by omega)]
      have hsub : N - pre.length - 1 = N - (pre.length + 1) := by omega
      rw [hsub]
      simp [List.append_assoc]
    have hstep : pushAll (T := T) (N := N)
          { data := pre.map some ++ List.replicate (N - pre.length) none,
            len := pre.length } (v :: vs)
        = pushAll (T := T) (N := N)
            { data := ((pre ++ [v]).map some
                ++ List.replicate (N - (pre.length + 1)) none),
              len := pre.length + 1 } vs := by
      simp [pushAll, hpush]
    rw [hstep]
    have h' : (pre ++ [v]).length + vs.length ≤ N := by
      simp only [List.length_append, List.length_cons, List.length_nil] at h ⊢
      omega
    have hplen : (pre ++ [v]).length = pre.length + 1 := by simp
    rw [← hplen]
    rw [ih (pre ++ [v]) h']
    have h2 : (pre ++ [v]) ++ vs = pre ++ (v :: vs) := by simp
    have h3 : (pre ++ [v]).length + vs.length = pre.length + (v :: vs).length := by
      simp only [List.length_append, List.length_cons, List.length_nil]
      omega
    rw [h2, h3]

/-- `pushAll` from a fresh buffer, when all values fit. -/
theorem pushAll_new {T : Type} {N : Nat} (vs : List T) (h : vs.length ≤ N) :
    pushAll (Buffer.new T N) vs
      = { data := vs.map some ++ List.replicate (N - vs.length) none,
          len := vs.length } := by
  have := pushAll_spec (N := N) vs [] (by simpa using h)
  simpa [Buffer.new] using this

/-- On an exhausted iterator, `next` returns `none` and changes nothing. -/
theorem next_exhausted {T : Type} {N : Nat} (it : IntoIter T N)
    (h : it.len ≤ it.current_index) : it.next = (none, it) := by
  simp [IntoIter.next, h]

/-- On an exhausted iterator, any number of pulls all return `none` and
change nothing. -/
theorem pullRepeat_exhausted {T : Type} {N : Nat} (it : IntoIter T N)
    (h : it.len ≤ it.current_index) (m : Nat) :
    it.pullRepeat m = (List.replicate m none, it) := by
  induction m with
  | zero => rfl
  | succ m ih =>
    simp [IntoIter.pullRepeat, next_exhausted it h, ih, List.replicate_succ]

/-- `pullRepeat` splits over addition of pull counts. -/
theorem pullRepeat_add {T : Type} {N : Nat} (a b : Nat) :
    ∀ it : IntoIter T N,
    it.pullRepeat (a + b)
      = ((it.pullRepeat a).1 ++ ((it.pullRepeat a).2.pullRepeat b).1,
         ((it.pullRepeat a).2.pullRepeat b).2) := by
  induction a with
  | zero => intro it; simp [IntoIter.pullRepeat]
  | succ a ih =>
    intro it
    have h1 : a + 1 + b = (a + b) + 1 := by omega
    rw [h1]
    simp [IntoIter.pullRepeat, ih]

/-- Master decomposition lemma for pulling: on an iterator whose slots are
`pre ++ mid ++ post` with the cursor at `pre.length` and `len` covering
exactly `pre ++ mid`, pulling `m ≤ mid.length` times yields the first `m`
entries of `mid` and blanks out those slots. -/
theorem pullRepeat_decomp {T : Type} {N : Nat} (m : Nat) :
    ∀ (pre mid post : List (Option T)) (it : IntoIter T N),
    m ≤ mid.length →
    it.buffer = pre ++ mid ++ post →
    it.current_index = pre.length →
    it.len = pre.length + mid.length →
    it.pullRepeat m
      = (mid.take m,
         { buffer := pre ++ (List.replicate m none ++ (mid.drop m ++ post)),
           len := it.len,
           current_index := pre.length + m }) := by
  induction m with
  | zero =>
    intro pre mid post it _ hb hc hl
    cases it
    simp only [IntoIter.pullRepeat, List.take_zero, List.drop_zero,
      List.replicate_zero, List.nil_append]
    simp_all [List.append_assoc]
  | succ m ih =>
    intro pre mid post it hm hb hc hl
    cases mid with
    | nil => simp at hm
    | cons x ms =>
      have hlt : it.current_index < it.len := by
        rw [hc, hl]; simp
      have hnext : it.next
          = (x, { buffer := pre ++ ((none :: ms) ++ post),
                  len := it.len,
                  current_index := pre.length + 1 }) := by
        simp only [IntoIter.next, if_neg (Nat.not_le.mpr hlt)]
        have h1 : it.buffer.getD it.current_index none = x := by
          rw [hb, hc, List.append_assoc]
          have := getD_append_length pre ((x :: ms) ++ post) (none : Option T)
          simpa using this
        have h2 : it.buffer.set it.current_index none
            = pre ++ ((none :: ms) ++ post) := by
          rw [hb, hc, List.append_assoc]
          have hsa := set_append_length pre ((x :: ms) ++ post) (none : Option T)
          simp only [List.cons_append, List.set_cons_zero] at hsa
          exact hsa
        rw [h1, h2, hc]
      have hrec := ih (pre ++ [none]) ms post
          { buffer := pre ++ ((none :: ms) ++ post),
            len := it.len,
            current_index := pre.length + 1 }
          (by simp at hm ⊢; omega)
          (by simp [List.append_assoc])
          (by simp)
          (by rw [hl]; simp; omega)
      simp only [IntoIter.pullRepeat, hnext, hrec]
      simp only [List.take_succ_cons, List.drop_succ_cons,
        List.replicate_succ, Prod.mk.injEq, List.cons.injEq,
        IntoIter.mk.injEq, true_and, List.append_assoc, List.cons_append,
        List.length_append, List.length_cons, List.length_nil,
        List.nil_append]
      omega

/-- The slots destroyed by `IntoIter::drop` on a decomposed iterator state:
exactly the `mid` section between cursor and `len`. -/
theorem dropDestroys_decomp {T : Type} {N : Nat} (mid : List (Option T)) :
    ∀ (pre post : List (Option T)),
    (IntoIter.dropDestroys (T := T) (N := N)
      { buffer := pre ++ mid ++ post,
        len := pre.length + mid.length,
        current_index := pre.length }) = mid := by
  induction mid with
  | nil => intro pre post; simp [IntoIter.dropDestroys, IntoIter.dropTouches]
  | cons x ms ih =>
    intro pre post
    simp only [IntoIter.dropDestroys, IntoIter.dropTouches] at *
    have hn : pre.length + (x :: ms).length - pre.length = ms.length + 1 := by
      simp
    rw [hn, List.range'_succ]
    simp only [List.map_cons]
    have h1 : (pre ++ (x :: ms) ++ post).getD pre.length none = x := by
      rw [List.append_assoc]
      have := getD_append_length pre ((x :: ms) ++ post) (none : Option T)
      simpa using this
    have h2 := ih (pre ++ [x]) post
    have hlen : (pre ++ [x]).length = pre.length + 1 := by simp
    rw [hlen] at h2
    have hnn : pre.length + 1 + ms.length - (pre.length + 1) = ms.length := by omega
    rw [hnn] at h2
    have hbuf : pre ++ [x] ++ ms ++ post = pre ++ (x :: ms) ++ post := by
      simp [List.append_assoc]
    rw [hbuf] at h2
    rw [h1, h2]

/-- `pushAllSucc` relates the final length to the number of successful
pushes. -/
theorem pushAllSucc_len {T : Type} {N : Nat} (vs : List T) :
    ∀ b : Buffer T N,
    ((pushAllSucc b vs).1).len = b.len + (pushAllSucc b vs).2 := by
  induction vs with
  | nil => intro b; rfl
  | cons v vs ih =>
    intro b
    by_cases h : N ≤ b.len
    · have hp : b.push v = (b, Except.error (Error.BufferIsFull v)) := by
        simp [Buffer.push, h]
      simp [pushAllSucc, hp, ih b]
    · have hp : b.push v
          = ({ data := b.data.set b.len (some v), len := b.len + 1 },
             Except.ok ()) := by
        simp [Buffer.push, h]
      simp [pushAllSucc, hp, ih]
      omega

/-- `next` never moves the cursor backwards. -/
theorem next_cursor_mono {T : Type} {N : Nat} (it : IntoIter T N) :
    it.current_index ≤ ((it.next).2).current_index := by
  by_cases h : it.len ≤ it.current_index
  · simp [IntoIter.next, h]
  · simp [IntoIter.next, h]

/-- `next` never changes `len`. -/
theorem next_len_eq {T : Type} {N : Nat} (it : IntoIter T N) :
    ((it.next).2).len = it.len := by
  by_cases h : it.len ≤ it.current_index
  · simp [IntoIter.next, h]
  · simp [IntoIter.next, h]

/-- Any number of pulls never moves the cursor backwards. -/
theorem pullRepeat_cursor_mono {T : Type} {N : Nat} (m : Nat) :
    ∀ it : IntoIter T N,
    it.current_index ≤ ((it.pullRepeat m).2).current_index := by
  induction m with
  | zero => intro it; exact Nat.le_refl _
  | succ m ih =>
    intro it
    exact Nat.le_trans (next_cursor_mono it) (ih (it.next).2)

/-- The iterator produced by `into_iter` from the buffer reached by pushing
`vs` into a fresh buffer, when all values fit. -/
theorem into_iter_pushAll_new {T : Type} {N : Nat} (vs : List T)
    (h : vs.length ≤ N) :
    (pushAll (Buffer.new T N) vs).into_iter.1
      = { buffer := vs.map some ++ List.replicate (N - vs.length) none,
          len := vs.length,
          current_index := 0 } := by
  rw [pushAll_new vs h]; rfl

/-- State after pulling exactly `j ≤ vs.length` values from the iterator of a
freshly pushed buffer. -/
theorem pullRepeat_pushAll_new {T : Type} {N : Nat} (vs : List T) (j : Nat)
    (hk : vs.length ≤ N) (hj : j ≤ vs.length) :
    ((pushAll (Buffer.new T N) vs).into_iter.1).pullRepeat j
      = ((vs.map some).take j,
         { buffer := List.replicate j none
             ++ ((vs.drop j).map some ++ List.replicate (N - vs.length) none),
           len := vs.length,
           current_index := j }) := by
  rw [into_iter_pushAll_new vs hk]
  have hdec := pullRepeat_decomp (T := T) (N := N) j
      [] (vs.map some) (List.replicate (N - vs.length) none)
      { buffer := vs.map some ++ List.replicate (N - vs.length) none,
        len := vs.length,
        current_index := 0 }
      (by simpa using hj) (by simp) (by simp) (by simp)
  rw [hdec]
  simp [List.map_drop]

/-- `pushAll` on a zero-capacity buffer never changes it. -/
theorem pushAll_new_zero {T : Type} (vs : List T) :
    pushAll (Buffer.new T 0) vs = Buffer.new T 0 := by
  induction vs with
  | nil => rfl
  | cons v vs ih =>
    have hp : (Buffer.new T 0).push v
        = (Buffer.new T 0, Except.error (Error.BufferIsFull v)) := by
      simp [Buffer.push, Buffer.new]
    simp [pushAll] at ih ⊢
    rw [hp]
    exact ih

/-! ### Claim theorems -/

/-- Claim C1: for every sequence of `k ≤ N` values appended successfully to
a freshly constructed buffer, consuming the buffer into the drain iterator
and pulling repeatedly yields exactly those `k` values, in the order they
were appended (and nothing but `none` afterwards). -/
theorem drain_yields_appended_in_order (T : Type) (N : Nat) (vs : List T)
    (hk : vs.length ≤ N) (m : Nat) :
    ((((pushAll (Buffer.new T N) vs).into_iter.1)).pullRepeat
        (vs.length + m)).1
      = vs.map some ++ List.replicate m none := by
  rw [pullRepeat_add]
  rw [pullRepeat_pushAll_new vs vs.length hk (Nat.le_refl _)]
  have hex : (IntoIter.pullRepeat (T := T) (N := N)
      { buffer := List.replicate vs.length none
          ++ ((vs.drop vs.length).map some
            ++ List.replicate (N - vs.length) none),
        len := vs.length,
        current_index := vs.length } m)
      = (List.replicate m none, _) :=
    pullRepeat_exhausted _ (Nat.le_refl _) m
  rw [hex]
  simp

/-- Claim C1, witness: capacity 3, values `[1, 2, 3]`, one extra pull. -/
theorem drain_yields_appended_in_order_witness :
    ((((pushAll (Buffer.new Nat 3) [1, 2, 3]).into_iter.1)).pullRepeat
        ([1, 2, 3].length + 1)).1
      = [1, 2, 3].map some ++ List.replicate 1 none :=
  drain_yields_appended_in_order Nat 3 [1, 2, 3] (by decide) 1

/-- Claim C2: pushing into a buffer with `len = N` fails with
`BufferIsFull` carrying exactly the pushed value, and the failed call leaves
the buffer (its `len` and every slot) unchanged. -/
theorem push_when_full_is_noop (T : Type) (N : Nat) (b : Buffer T N) (v : T)
    (h : b.len = N) :
    b.push v = (b, Except.error (Error.BufferIsFull v)) := by
  simp [Buffer.push, h]

/-- Claim C2, witness: a full buffer of capacity 2 rejects the value 3 and
is unchanged. -/
theorem push_when_full_is_noop_witness :
    Buffer.push (T := Nat) (N := 2) { data := [some 1, some 2], len := 2 } 3
      = ({ data := [some 1, some 2], len := 2 },
         Except.error (Error.BufferIsFull 3)) :=
  push_when_full_is_noop Nat 2 { data := [some 1, some 2], len := 2 } 3 rfl

/-- Claim C4: consuming a buffer transfers its storage and its length into a
new drain iterator with cursor 0, and the residual buffer has `len = 0`, so
its own destructor touches no slot and destroys nothing — no value can be
destroyed twice by the buffer-then-iterator teardown pair. -/
theorem into_iter_transfers_and_disarms (T : Type) (N : Nat)
    (b : Buffer T N) :
    b.into_iter.1
        = { buffer := b.data, len := b.len, current_index := 0 }
    ∧ (b.into_iter.2).len = 0
    ∧ (b.into_iter.2).dropTouches = []
    ∧ (b.into_iter.2).dropDestroys = [] :=
  ⟨rfl, rfl, rfl, rfl⟩

/-- Claim C6: a drain iterator in the exhausted state (`len ≤ cursor`)
returns `none` from every subsequent pull with no side effect, stably under
repetition; in particular the iterator of a freshly pushed buffer is
exhausted after its `k` values have been pulled. -/
theorem exhausted_pull_stable (T : Type) (N : Nat) (it : IntoIter T N)
    (h : it.len ≤ it.current_index) (m : Nat) :
    it.pullRepeat m = (List.replicate m none, it)
    ∧ ∀ vs : List T, vs.length ≤ N →
        ((((pushAll (Buffer.new T N) vs).into_iter.1).pullRepeat
            vs.length).2).len
          ≤ ((((pushAll (Buffer.new T N) vs).into_iter.1).pullRepeat
              vs.length).2).current_index := by
  refine ⟨pullRepeat_exhausted it h m, ?_⟩
  intro vs hk
  rw [pullRepeat_pushAll_new vs vs.length hk (Nat.le_refl _)]

/-- Claim C6, witness: an exhausted iterator at capacity 2, pulled twice
more, and the drained two-element scenario. -/
theorem exhausted_pull_stable_witness :
    (IntoIter.pullRepeat (T := Nat) (N := 2)
        { buffer := [none, none], len := 0, current_index := 0 } 2
      = (List.replicate 2 none,
         { buffer := [none, none], len := 0, current_index := 0 }))
    ∧ ((((pushAll (Buffer.new Nat 2) [7, 8]).into_iter.1).pullRepeat
          [7, 8].length).2).len
        ≤ ((((pushAll (Buffer.new Nat 2) [7, 8]).into_iter.1).pullRepeat
            [7, 8].length).2).current_index :=
  ⟨(exhausted_pull_stable Nat 2
      { buffer := [none, none], len := 0, current_index := 0 }
      (by decide) 2).1,
   (exhausted_pull_stable Nat 2
      { buffer := [none, none], len := 0, current_index := 0 }
      (by decide) 2).2 [7, 8] (by decide)⟩

/-- Claim C7: pushing into a buffer with `len < N` succeeds, storing the
value into slot `len` and incrementing `len` by one; consequently, after any
sequence of pushes from a fresh buffer, `len` equals the number of pushes
that succeeded. -/
theorem push_below_capacity_succeeds (T : Type) (N : Nat) (b : Buffer T N)
    (v : T) (h : b.len < N) :
    b.push v
        = ({ data := b.data.set b.len (some v), len := b.len + 1 },
           Except.ok ())
    ∧ ∀ vs : List T,
        ((pushAllSucc (Buffer.new T N) vs).1).len
          = (pushAllSucc (Buffer.new T N) vs).2 := by
  constructor
  · simp [Buffer.push, Nat.not_le.mpr h]
  · intro vs
    have := pushAllSucc_len (N := N) vs (Buffer.new T N)
    simpa [Buffer.new] using this

/-- Claim C7, witness: pushing 7 into an empty capacity-2 buffer, and the
length-equals-successes count for the overlong sequence `[1, 2, 3]`. -/
theorem push_below_capacity_succeeds_witness :
    (Buffer.push (T := Nat) (N := 2) { data := [none, none], len := 0 } 7
      = ({ data := [none, none].set 0 (some 7), len := 0 + 1 },
         Except.ok ()))
    ∧ ((pushAllSucc (Buffer.new Nat 2) [1, 2, 3]).1).len
        = (pushAllSucc (Buffer.new Nat 2) [1, 2, 3]).2 :=
  ⟨(push_below_capacity_succeeds Nat 2 { data := [none, none], len := 0 } 7
      (by decide)).1,
   (push_below_capacity_succeeds Nat 2 { data := [none, none], len := 0 } 7
      (by decide)).2 [1, 2, 3]⟩

/-- Claim C3: destroying the drain iterator of a freshly pushed buffer after
pulling `j` of its `k` values touches exactly the slots `[j, k)`, each once,
and destroys exactly the `k - j` not-yet-pulled values; slots `[0, j)` and
`[k, N)` are not touched. -/
theorem iterator_drop_destroys_remaining (T : Type) (N : Nat) (vs : List T)
    (j : Nat) (hk : vs.length ≤ N) (hj : j ≤ vs.length) :
    ((((pushAll (Buffer.new T N) vs).into_iter.1).pullRepeat j).2).dropTouches
        = List.range' j (vs.length - j)
    ∧ ((((pushAll (Buffer.new T N) vs).into_iter.1).pullRepeat
          j).2).dropDestroys
        = (vs.drop j).map some
    ∧ (((((pushAll (Buffer.new T N) vs).into_iter.1).pullRepeat
          j).2).dropTouches).Nodup
    ∧ (∀ i, i < j →
        i ∉ ((((pushAll (Buffer.new T N) vs).into_iter.1).pullRepeat
            j).2).dropTouches)
    ∧ (∀ i, vs.length ≤ i →
        i ∉ ((((pushAll (Buffer.new T N) vs).into_iter.1).pullRepeat
            j).2).dropTouches) := by
  rw [pullRepeat_pushAll_new vs j hk hj]
  refine ⟨rfl, ?_, ?_, ?_, ?_⟩
  · have hd := dropDestroys_decomp (T := T) (N := N) ((vs.drop j).map some)
        (List.replicate j none) (List.replicate (N - vs.length) none)
    simp only [List.length_replicate, List.length_map, List.length_drop,
      List.append_assoc] at hd
    have hlen : j + (vs.length - j) = vs.length := by omega
    rw [hlen] at hd
    exact hd
  · exact List.nodup_range' _ _
  · intro i hi
    simp only [IntoIter.dropTouches, List.mem_range']
    rintro ⟨t, ht, rfl⟩
    omega
  · intro i hi
    simp only [IntoIter.dropTouches, List.mem_range']
    rintro ⟨t, ht, rfl⟩
    omega

/-- Claim C3, witness: capacity 2, values `[1, 2]`, one value pulled:
dropping the iterator destroys exactly the value 2, and touches neither the
already-yielded slot 0 nor any slot at or beyond the length. -/
theorem iterator_drop_destroys_remaining_witness :
    ((((pushAll (Buffer.new Nat 2) [1, 2]).into_iter.1).pullRepeat
          1).2).dropDestroys
        = ([1, 2].drop 1).map some
    ∧ 0 ∉ ((((pushAll (Buffer.new Nat 2) [1, 2]).into_iter.1).pullRepeat
          1).2).dropTouches
    ∧ 2 ∉ ((((pushAll (Buffer.new Nat 2) [1, 2]).into_iter.1).pullRepeat
          1).2).dropTouches :=
  ⟨(iterator_drop_destroys_remaining Nat 2 [1, 2] 1 (by decide)
      (by decide)).2.1,
   (iterator_drop_destroys_remaining Nat 2 [1, 2] 1 (by decide)
      (by decide)).2.2.2.1 0 (by decide),
   (iterator_drop_destroys_remaining Nat 2 [1, 2] 1 (by decide)
      (by decide)).2.2.2.2 2 (by decide)⟩

/-- Claim C5: destroying a never-consumed buffer reached by pushing `vs`
into a fresh buffer touches exactly the slots `[0, vs.length)` and destroys
exactly the pushed values; slots `[vs.length, N)` are not touched. -/
theorem buffer_drop_destroys_live_range (T : Type) (N : Nat) (vs : List T)
    (hk : vs.length ≤ N) :
    (pushAll (Buffer.new T N) vs).dropTouches = List.range vs.length
    ∧ (pushAll (Buffer.new T N) vs).dropDestroys = vs.map some
    ∧ ∀ i, vs.length ≤ i →
        i ∉ (pushAll (Buffer.new T N) vs).dropTouches := by
  rw [pushAll_new vs hk]
  refine ⟨rfl, ?_, ?_⟩
  · have hd := dropDestroys_decomp (T := T) (N := N) (vs.map some)
        [] (List.replicate (N - vs.length) none)
    simp only [List.nil_append, List.length_nil, List.length_map,
      Nat.zero_add] at hd
    simpa [Buffer.dropDestroys, Buffer.dropTouches, IntoIter.dropDestroys,
      IntoIter.dropTouches, List.range_eq_range'] using hd
  · intro i hi
    simp only [Buffer.dropTouches, List.mem_range]
    omega

/-- Claim C5, witness: capacity 3, values `[5, 6]`: the destructor destroys
exactly 5 and 6 and does not touch the never-appended slot 2. -/
theorem buffer_drop_destroys_live_range_witness :
    (pushAll (Buffer.new Nat 3) [5, 6]).dropDestroys = [5, 6].map some
    ∧ 2 ∉ (pushAll (Buffer.new Nat 3) [5, 6]).dropTouches :=
  ⟨(buffer_drop_destroys_live_range Nat 3 [5, 6] (by decide)).2.1,
   (buffer_drop_destroys_live_range Nat 3 [5, 6] (by decide)).2.2 2
      (by decide)⟩

/-- Claim C8: `len ≤ N` holds at construction and is preserved by every
push (successful or failed); `cursor ≤ len ≤ N` holds for the iterator at
creation from any buffer satisfying the buffer invariant and is preserved by
every pull. -/
theorem length_and_cursor_invariants (T : Type) (N : Nat) :
    (Buffer.new T N).len ≤ N
    ∧ (∀ (b : Buffer T N) (v : T), b.len ≤ N → ((b.push v).1).len ≤ N)
    ∧ (∀ b : Buffer T N, b.len ≤ N →
        (b.into_iter.1).current_index ≤ (b.into_iter.1).len
        ∧ (b.into_iter.1).len ≤ N)
    ∧ ∀ it : IntoIter T N, it.current_index ≤ it.len → it.len ≤ N →
        ((it.next).2).current_index ≤ ((it.next).2).len
        ∧ ((it.next).2).len ≤ N := by
  refine ⟨Nat.zero_le N, ?_, ?_, ?_⟩
  · intro b v hb
    by_cases h : N ≤ b.len
    · simpa [Buffer.push, h] using hb
    · simp only [Buffer.push, if_neg h]
      omega
  · intro b hb
    exact ⟨Nat.zero_le _, hb⟩
  · intro it hc hl
    by_cases h : it.len ≤ it.current_index
    · simp only [IntoIter.next, if_pos h]
      exact ⟨hc, hl⟩
    · simp only [IntoIter.next, if_neg h]
      exact ⟨by omega, hl⟩

/-- Claim C8, witness: a push into an empty capacity-2 buffer preserves
`len ≤ 2`, and a pull on a two-element iterator preserves
`cursor ≤ len`. -/
theorem length_and_cursor_invariants_witness :
    ((Buffer.push (T := Nat) (N := 2) { data := [none, none], len := 0 }
        5).1).len ≤ 2
    ∧ ((IntoIter.next (T := Nat) (N := 2)
          { buffer := [some 1, some 2], len := 2,
            current_index := 0 }).2).current_index
        ≤ ((IntoIter.next (T := Nat) (N := 2)
            { buffer := [some 1, some 2], len := 2,
              current_index := 0 }).2).len :=
  ⟨(length_and_cursor_invariants Nat 2).2.1 { data := [none, none], len := 0 }
      5 (by decide),
   ((length_and_cursor_invariants Nat 2).2.2.2
      { buffer := [some 1, some 2], len := 2, current_index := 0 }
      (by decide) (by decide)).1⟩

/-- Claim C9: pulling never moves the cursor backwards (single pull or any
repeated number of pulls), never changes `len`, and an exhausted iterator
stays exhausted and unchanged — the sequence is single-pass and cannot be
rewound. -/
theorem drain_single_pass (T : Type) (N : Nat) (it : IntoIter T N) :
    it.current_index ≤ ((it.next).2).current_index
    ∧ ((it.next).2).len = it.len
    ∧ (it.len ≤ it.current_index → it.next = (none, it))
    ∧ ∀ m, it.current_index ≤ ((it.pullRepeat m).2).current_index :=
  ⟨next_cursor_mono it, next_len_eq it,
   fun h => next_exhausted it h,
   fun m => pullRepeat_cursor_mono m it⟩

/-- Claim C9, witness: the empty iterator is exhausted and `next` leaves it
unchanged. -/
theorem drain_single_pass_witness :
    IntoIter.next (T := Nat) (N := 0)
        { buffer := [], len := 0, current_index := 0 }
      = (none, { buffer := [], len := 0, current_index := 0 }) :=
  (drain_single_pass Nat 0
      { buffer := [], len := 0, current_index := 0 }).2.2.1 (by decide)

/-- Claim C10: with capacity `N = 0`, every push to a reachable buffer fails
with `BufferIsFull` returning the given value, and the iterator obtained by
consuming such a buffer returns `none` on the very first pull. -/
theorem capacity_zero_born_full (T : Type) (vs : List T) (v : T) :
    (pushAll (Buffer.new T 0) vs).push v
        = (Buffer.new T 0, Except.error (Error.BufferIsFull v))
    ∧ ((pushAll (Buffer.new T 0) vs).into_iter.1).next
        = (none, (pushAll (Buffer.new T 0) vs).into_iter.1) := by
  rw [pushAll_new_zero]
  exact ⟨by simp [Buffer.push, Buffer.new],
         next_exhausted _ (Nat.le_refl _)⟩

end SoBuff
